import Mathlib

/-!
Verification of the persistence and identity layer of the Volunteer-Me
backend (`mapp/`).  Python source files are embedded shallowly:

* `mapp/database/database.py` — `SecurityManager`, `UserManager`,
  `UserAdvancements` (scan-based directory index, follow graph, ratings);
* `mapp/database/__init__.py` — `AdvancedPasswordHasher`, `Applications`,
  `VolunteerDatabase`, `OrganizerDatabase`, module-level
  `search_user_by_token`;
* `mapp/database/events.py` — `EventsDatabase`;
* `mapp/misc/utils.py` — `generate_token`.

Python dicts holding JSON documents become Lean structures whose fields are
`Option`-valued (`none` models an absent key / JSON null); `dict.get(k, d)`
becomes `Option.getD`; filesystem corpora become association lists keyed by
role and path username; randomness (salts, token bytes, UUIDs, timestamps)
is passed in explicitly as arguments.
-/

/-- Modelled from the spec: the argon2 `PasswordHasher.hash` / `verify`
primitives (third-party library, not part of `src/`).  The spec's contract
for the Credential Hasher is "derives and verifies password hashes";
idealised here as a deterministic hash whose `verify` succeeds exactly on
the hashed input. -/
structure Argon2 where
  hash : String → String
  verify : String → String → Bool
  law : ∀ x y, verify (hash x) y = (x == y)

/-- A concrete instance of the idealised argon2 primitive, used to evaluate
the model on concrete inputs. -/
def idealArgon2 : Argon2 where
  hash := id
  verify := fun stored input => stored == input
  law := by intro x y; rfl

/-- Model of `SecurityManager._pepper` (database.py line 44). -/
def SecurityManager.pepper : String := "salty_pepper_too_salty)))"

/-- Model of `SecurityManager.hash_password` (database.py lines 46-50): hashes
`password + salt + pepper`.  The salt is a caller-supplied argument (the
`os.urandom(16).hex()` default is passed in by callers explicitly). -/
def SecurityManager.hash_password (P : Argon2) (password salt : String) : String :=
  P.hash (password ++ salt ++ SecurityManager.pepper)

/-- Model of `SecurityManager.verify_password` (database.py lines 52-60): recomputes
the salted input and verifies; a verification failure yields `false`. -/
def SecurityManager.verify_password (P : Argon2) (stored_hash password salt : String) : Bool :=
  P.verify stored_hash (password ++ salt ++ SecurityManager.pepper)

/-- Model of `PAPPER` (database/__init__.py line 8). -/
def PAPPER : String := "thispaperistoolongthatnoonecancrackitgoodluck)"

/-- Model of `AdvancedPasswordHasher.hash_password` (database/__init__.py lines
28-30): hashes `password + salt + PAPPER`. -/
def AdvancedPasswordHasher.hash_password (P : Argon2) (password salt : String) : String :=
  P.hash (password ++ salt ++ PAPPER)

/-- Model of `AdvancedPasswordHasher.verify_password` (database/__init__.py lines
32-40): verifies `password + salt + PAPPER` against `hashed`; a mismatch
returns `false`, and a `TypeError` (a `None` hash or salt at call sites
that pass `self.get(...)`) also returns `false`. -/
def AdvancedPasswordHasher.verify_password (P : Argon2) (password salt hashed : String) : Bool :=
  P.verify hashed (password ++ salt ++ PAPPER)

/-- Model of `AdvancedPasswordHasher.verify_password` as reached from
`VolunteerDatabase.verify_user` / `OrganizerDatabase.verify_user`, where the
hash and salt come from `LightDB.get` and may be absent (`None`): Python
then raises `TypeError`, which the hasher catches and turns into `false`. -/
def AdvancedPasswordHasher.verify_password_opt (P : Argon2) (password : String)
    (salt hashed : Option String) : Bool :=
  match salt, hashed with
  | some s, some h => AdvancedPasswordHasher.verify_password P password s h
  | _, _ => false

/-- A rating entry as appended by `UserAdvancements.rate_user`
(database.py lines 328-335). -/
structure RatingEntry where
  id_ : Nat
  who_rate : String
  rate : ℚ
  comment : Option String
deriving DecidableEq

/-- The JSON document stored per account (`user_data.json` / `data.json`):
a Python dict whose keys may be absent, modelled with `Option` fields
(`none` is an absent key or JSON `null`). -/
structure JsonDoc where
  username : Option String := none
  password : Option String := none
  salt : Option String := none
  token : Option String := none
  following : Option (List String) := none
  followers : Option (List String) := none
  rating : Option (List RatingEntry) := none
deriving DecidableEq

/-- The empty document `{}` returned by `JSONDatabaseManager.load` for a
missing or unreadable file (database.py lines 92-101). -/
def emptyDoc : JsonDoc := {}

/-- Model of `UserManager.change_password` (database.py lines 130-142): verifies the
old password against the stored hash and salt (defaulting to `""` via
`data.get(...)`); on failure returns `False` without touching the document;
on success generates a fresh salt (passed here as `freshSalt`, the
`os.urandom(16).hex()` value), stores the new hash and the new salt, and
saves. -/
def UserManager.change_password (P : Argon2) (data : JsonDoc)
    (freshSalt old_password new_password : String) : Bool × JsonDoc :=
  if SecurityManager.verify_password P (data.password.getD "") old_password (data.salt.getD "")
  then (true, { data with
                  password := some (SecurityManager.hash_password P new_password freshSalt)
                  salt := some freshSalt })
  else (false, data)

/-- Model of `VolunteerDatabase.verify_user` (database/__init__.py lines 158-161):
verifies against the stored hash and salt from `LightDB.get` (a missing
key yields `None`, making the hasher return `false` via `TypeError`). -/
def VolunteerDatabase.verify_user (P : Argon2) (data : JsonDoc) (password : String) : Bool :=
  AdvancedPasswordHasher.verify_password_opt P password data.salt data.password

/-- Model of `VolunteerDatabase.change_password` (database/__init__.py lines
169-178): verifies the old password; on failure returns `False` with no
write; on success re-hashes the new password with the *stored* salt
(`self.get("salt")`) and saves — the salt field itself is never
rewritten. -/
def VolunteerDatabase.change_password (P : Argon2) (data : JsonDoc)
    (old_password new_password : String) : Bool × JsonDoc :=
  if VolunteerDatabase.verify_user P data old_password
  then (true, { data with
                  password := some (AdvancedPasswordHasher.hash_password P new_password
                    (data.salt.getD "")) })
  else (false, data)

/-- Model of `OrganizerDatabase.verify_user` (database/__init__.py lines 297-300):
same body as the volunteer variant. -/
def OrganizerDatabase.verify_user (P : Argon2) (data : JsonDoc) (password : String) : Bool :=
  AdvancedPasswordHasher.verify_password_opt P password data.salt data.password

/-- Model of `OrganizerDatabase.change_password` (database/__init__.py lines
308-317): identical to the volunteer variant — re-hashes with the stored
salt and never rewrites the salt field. -/
def OrganizerDatabase.change_password (P : Argon2) (data : JsonDoc)
    (old_password new_password : String) : Bool × JsonDoc :=
  if OrganizerDatabase.verify_user P data old_password
  then (true, { data with
                  password := some (AdvancedPasswordHasher.hash_password P new_password
                    (data.salt.getD "")) })
  else (false, data)

/-- Model of `UserRole` (database.py lines 16-18). -/
inductive UserRole where
  | VOLUNTEER
  | ORGANIZER
deriving DecidableEq

/-- An on-disk file: either valid JSON (a parsed document) or malformed. -/
inductive JFile where
  | malformed
  | doc (d : JsonDoc)
deriving DecidableEq

/-- One file of the entity corpus: its role directory, the username
directory it sits in, and its content.  The corpus itself is the list of
these files in filesystem-walk order. -/
structure Entry where
  role : UserRole
  pathUser : String
  file : JFile
deriving DecidableEq

/-- The path key of a corpus entry. -/
def Entry.key (e : Entry) : UserRole × String := (e.role, e.pathUser)

/-- Distinct files have distinct paths (a property of any real filesystem
corpus). -/
def keysNodup (c : List Entry) : Prop := (c.map Entry.key).Nodup

instance (c : List Entry) : Decidable (keysNodup c) :=
  inferInstanceAs (Decidable (List.Nodup _))

/-- Parsing a file: `json.load` succeeds exactly on well-formed files. -/
def parsedDoc : JFile → Option JsonDoc
  | .malformed => none
  | .doc d => some d

/-- Model of `JSONDatabaseManager.load` reached through a `UserManager` for a given
role and username (database.py lines 92-101, 113-118): the document at
`<Role>/<username>/user_data.json`, or `{}` when the file is missing or
unreadable. -/
def loadDoc : List Entry → UserRole → String → JsonDoc
  | [], _, _ => emptyDoc
  | e :: rest, r, u =>
    if e.role = r ∧ e.pathUser = u then
      match e.file with
      | .doc d => d
      | .malformed => emptyDoc
    else loadDoc rest r u

/-- Model of `JSONDatabaseManager.save` (database.py lines 83-90): full-document
overwrite at the entry's path, creating the file if absent. -/
def saveDoc : List Entry → UserRole → String → JsonDoc → List Entry
  | [], r, u, d => [⟨r, u, .doc d⟩]
  | e :: rest, r, u, d =>
    if e.role = r ∧ e.pathUser = u then ⟨r, u, .doc d⟩ :: rest
    else e :: saveDoc rest r u d

/-- The generic corpus walk of `UserAdvancements.search_user_by_token` /
`search_user_by_username` (database.py lines 175-209): visit every
`user_data.json`, skip files whose JSON fails to parse (logged warning),
and return role and document of the first file whose selected field equals
the target. -/
def scanFirst (sel : JsonDoc → Option String) (v : String) :
    List Entry → Option (UserRole × JsonDoc)
  | [] => none
  | e :: rest =>
    match parsedDoc e.file with
    | some d => if sel d = some v then some (e.role, d) else scanFirst sel v rest
    | none => scanFirst sel v rest

/-- Model of `UserAdvancements.search_user_by_token` (database.py lines 175-191). -/
def UserAdvancements.search_user_by_token (c : List Entry) (token : String) :
    Option (UserRole × JsonDoc) :=
  scanFirst (fun d => d.token) token c

/-- Model of `UserAdvancements.search_user_by_username` (database.py lines
193-209). -/
def UserAdvancements.search_user_by_username (c : List Entry) (username : String) :
    Option (UserRole × JsonDoc) :=
  scanFirst (fun d => d.username) username c

/-- Module-level `search_user_by_token` (database/__init__.py lines
351-360): the same corpus walk, but `json.load` is *not* wrapped in a
`try`/`except`, so a malformed file raises `json.JSONDecodeError` out of
the function instead of being skipped. -/
def search_user_by_token_module (token : String) :
    List Entry → Except String (Option (UserRole × JsonDoc))
  | [] => .ok none
  | e :: rest =>
    match parsedDoc e.file with
    | none => .error "JSONDecodeError"
    | some d =>
      if d.token = some token then .ok (some (e.role, d))
      else search_user_by_token_module token rest

/-- Model of `UserAdvancements.follow_user_` (database.py lines 251-268): loads the
follower as a VOLUNTEER document and the followee as an ORGANIZER document
(both loaded before any write), appends the followee to the follower's
`following` if absent (creating the list via `setdefault`), saves, then
appends the follower to the followee's `followers` if absent and saves. -/
def UserAdvancements.follow_user_ (c : List Entry) (follower followee : String) :
    List Entry :=
  let follower_data := loadDoc c .VOLUNTEER follower
  let followee_data := loadDoc c .ORGANIZER followee
  let c1 :=
    if followee ∈ follower_data.following.getD [] then c
    else saveDoc c .VOLUNTEER follower
      { follower_data with following := some (follower_data.following.getD [] ++ [followee]) }
  if follower ∈ followee_data.followers.getD [] then c1
  else saveDoc c1 .ORGANIZER followee
    { followee_data with followers := some (followee_data.followers.getD [] ++ [follower]) }

/-- Model of `UserAdvancements.get_followers` (database.py lines 289-298). -/
def UserAdvancements.get_followers (c : List Entry) (username : String) :
    Option (List String) :=
  match UserAdvancements.search_user_by_username c username with
  | none => none
  | some (_, d) => some (d.followers.getD [])

/-- Model of `UserAdvancements.get_following` (database.py lines 300-309). -/
def UserAdvancements.get_following (c : List Entry) (username : String) :
    Option (List String) :=
  match UserAdvancements.search_user_by_username c username with
  | none => none
  | some (_, d) => some (d.following.getD [])

/-- Model of `UserAdvancements.get_avg_rating` (database.py lines 340-358): `None`
for an unknown username, `0` for an empty rating list, otherwise the
arithmetic mean of the `rate` fields. -/
def UserAdvancements.get_avg_rating (c : List Entry) (username : String) : Option ℚ :=
  match UserAdvancements.search_user_by_username c username with
  | none => none
  | some (_, d) =>
    let rating := d.rating.getD []
    if rating = [] then some 0
    else some ((rating.map RatingEntry.rate).sum / rating.length)

/-- A work-order application document (database/__init__.py); `volunteers`
is accessed unconditionally by `assign_volunteer`. -/
structure Application where
  id : String
  volunteers : List String
  who_created : Option String := none
  status : Option String := none
deriving DecidableEq

/-- Model of `Applications.get_application` (database/__init__.py lines 76-81):
first document in the shared collection with the given id. -/
def Applications.get_application : List Application → String → Option Application
  | [], _ => none
  | a :: rest, i => if a.id = i then some a else Applications.get_application rest i

/-- Model of `Applications.update_application` (database/__init__.py lines 83-89):
replace the first document with the given id, then stop; no match means no
change. -/
def Applications.update_application : List Application → String → Application → List Application
  | [], _, _ => []
  | a :: rest, i, newApp =>
    if a.id = i then newApp :: rest
    else a :: Applications.update_application rest i newApp

/-- Model of `Applications.assign_volunteer` (database/__init__.py lines 91-98):
`True` after appending a not-yet-assigned volunteer, `False` if already
assigned, and Python's implicit `None` when the application is missing. -/
def Applications.assign_volunteer (apps : List Application) (application_id volunteer : String) :
    Option Bool × List Application :=
  match Applications.get_application apps application_id with
  | none => (none, apps)
  | some app =>
    if volunteer ∈ app.volunteers then (some false, apps)
    else (some true, Applications.update_application apps application_id
      { app with volunteers := app.volunteers ++ [volunteer] })

/-- An event document in the shared `events.json` collection
(events.py). -/
structure Event where
  id : String
  created_at : Option String := none
  status : Option String := none
  who_created : Option String := none
  participants : Option (List String) := none
  title : Option String := none
deriving DecidableEq

/-- A caller-supplied event payload dict: every key may be absent. -/
structure EventPayload where
  id : Option String := none
  created_at : Option String := none
  status : Option String := none
  who_created : Option String := none
  participants : Option (List String) := none
  title : Option String := none
deriving DecidableEq

/-- Python dict merge for one key: the updating dict's value wins when the
key is present. -/
def mergeVal {α : Type} (pv ev : Option α) : Option α :=
  match pv with
  | some v => some v
  | none => ev

/-- Model of `EventsDatabase.create_event` (events.py lines 28-42): generates a
UUID (`fresh_uuid`) and timestamp (`now`), then runs
`event_data.update({"id": ..., "created_at": ..., "status": ...,
"who_created": ..., **event_data})` — the trailing `**event_data` re-applies
every caller-supplied key *after* the generated ones, so a caller-supplied
`id`, `created_at`, `status` or `who_created` overrides the generated
value.  Appends the resulting document and returns the generated UUID. -/
def EventsDatabase.create_event (events : List Event) (event_data : EventPayload)
    (username fresh_uuid now : String) : String × List Event :=
  let ev : Event :=
    { id := event_data.id.getD fresh_uuid
      created_at := some (event_data.created_at.getD now)
      status := some (event_data.status.getD "active")
      who_created := some (event_data.who_created.getD username)
      participants := event_data.participants
      title := event_data.title }
  (fresh_uuid, events ++ [ev])

/-- Model of `EventsDatabase.get_event` (events.py lines 67-79). -/
def EventsDatabase.get_event : List Event → String → Option Event
  | [], _ => none
  | e :: rest, i => if e.id = i then some e else EventsDatabase.get_event rest i

/-- The merged document stored by `update_event` for the matched event
(events.py lines 94-97): `update_data["id"] = event_id` and
`update_data["created_at"] = event.get("created_at")` are forced *before*
`{**event, **update_data}`, so the stored id and creation timestamp come
from the existing event, while every other payload key wins over the
event's value. -/
def EventsDatabase.mergeUpdate (e : Event) (event_id : String) (p : EventPayload) : Event :=
  { id := event_id
    created_at := e.created_at
    status := mergeVal p.status e.status
    who_created := mergeVal p.who_created e.who_created
    participants := mergeVal p.participants e.participants
    title := mergeVal p.title e.title }

/-- Model of `EventsDatabase.update_event` (events.py lines 81-100): replace the
first event with the given id by the forced merge and return `True`;
`False` (and no change) when no event matches. -/
def EventsDatabase.update_event : List Event → String → EventPayload → Bool × List Event
  | [], _, _ => (false, [])
  | e :: rest, i, p =>
    if e.id = i then (true, EventsDatabase.mergeUpdate e i p :: rest)
    else
      let r := EventsDatabase.update_event rest i p
      (r.1, e :: r.2)

/-- One hexadecimal digit as produced by Python's `bytes.hex` /
`secrets.token_hex` (lowercase). -/
def hexDigitChar (n : Nat) : Char :=
  if n < 10 then Char.ofNat (48 + n) else Char.ofNat (87 + n)

/-- The two hex digits of one byte. -/
def byteToHexChars (b : Nat) : List Char :=
  [hexDigitChar (b / 16), hexDigitChar (b % 16)]

/-- Hex encoding of a byte string (`bytes.hex()`). -/
def bytesToHex : List Nat → List Char
  | [] => []
  | b :: bs => byteToHexChars b ++ bytesToHex bs

/-- Model of `secrets.token_hex(nbytes)`: hex encoding of `nbytes` random bytes,
the randomness supplied explicitly as `entropy`. -/
def secrets_token_hex (nbytes : Nat) (entropy : List Nat) : List Char :=
  bytesToHex (entropy.take nbytes)

/-- Model of `generate_token` (misc/utils.py lines 3-4):
`prefix + secrets.token_hex(length // 2)` with defaults
`prefix="org_"`, `length=35`. -/
def generate_token (pfx : String) (len : Nat) (entropy : List Nat) : String :=
  pfx ++ String.mk (secrets_token_hex (len / 2) entropy)

/-- Model of `role.name[:3]`: the first three letters of the role's enum name. -/
def UserRole.name3 : UserRole → String
  | .VOLUNTEER => "VOL"
  | .ORGANIZER => "ORG"

/-- The token stored by `UserAdvancements.create_user` (database.py line
243): `f"{role.name[:3]}_{os.urandom(12).hex()}"`. -/
def UserAdvancements.create_user_token (role : UserRole) (entropy : List Nat) : String :=
  role.name3 ++ "_" ++ String.mk (bytesToHex (entropy.take 12))

/-- A character is a lowercase hexadecimal digit. -/
def isHexDigitChar (ch : Char) : Prop :=
  ('0' ≤ ch ∧ ch ≤ '9') ∨ ('a' ≤ ch ∧ ch ≤ 'f')

instance (ch : Char) : Decidable (isHexDigitChar ch) :=
  inferInstanceAs (Decidable (_ ∨ _))

/-- A corpus entry hits the scan for selected field = `v`: its file parses
and the selected field of the document equals `v`. -/
def selHits (sel : JsonDoc → Option String) (v : String) (e : Entry) : Bool :=
  match parsedDoc e.file with
  | some d => decide (sel d = some v)
  | none => false

theorem selHits_true_iff (sel : JsonDoc → Option String) (v : String) (e : Entry) :
    selHits sel v e = true ↔ ∃ d, parsedDoc e.file = some d ∧ sel d = some v := by
  unfold selHits
  cases h : parsedDoc e.file <;> simp [h]

theorem selHits_false_iff (sel : JsonDoc → Option String) (v : String) (e : Entry) :
    selHits sel v e = false ↔ ∀ d, parsedDoc e.file = some d → sel d ≠ some v := by
  rw [← Bool.not_eq_true, selHits_true_iff]
  simp

/-- Scanning a corpus with no hit returns `none`. -/
theorem scanFirst_eq_none (sel : JsonDoc → Option String) (v : String) :
    ∀ c : List Entry, (∀ e ∈ c, selHits sel v e = false) → scanFirst sel v c = none := by
  intro c
  induction c with
  | nil => intro _; rfl
  | cons e rest ih =>
    intro h
    have he := (selHits_false_iff sel v e).mp (h e (by simp))
    show scanFirst sel v (e :: rest) = none
    unfold scanFirst
    cases hf : parsedDoc e.file with
    | none => exact ih fun x hx => h x (by simp [hx])
    | some d =>
      show (if sel d = some v then some (e.role, d) else scanFirst sel v rest) = none
      rw [if_neg (he d hf)]
      exact ih fun x hx => h x (by simp [hx])

/-- Scanning a corpus whose unique hit is the parsed document `d` at path
`(r, p)` returns exactly that document with its role, regardless of where
the file sits in walk order. -/
theorem scanFirst_unique (sel : JsonDoc → Option String) (v : String)
    (r : UserRole) (p : String) (d : JsonDoc) :
    ∀ c : List Entry, (⟨r, p, .doc d⟩ : Entry) ∈ c → sel d = some v →
      (∀ e ∈ c, selHits sel v e = true → e.key = (r, p)) →
      keysNodup c → scanFirst sel v c = some (r, d) := by
  intro c
  induction c with
  | nil => intro hmem; exact absurd hmem (List.not_mem_nil _)
  | cons e rest ih =>
    intro hmem hd honly hnd
    have hnd0 : (List.map Entry.key (e :: rest)).Nodup := hnd
    rw [List.map_cons] at hnd0
    have hnd' : (e.key ∉ rest.map Entry.key) ∧ (rest.map Entry.key).Nodup :=
      List.nodup_cons.mp hnd0
    show scanFirst sel v (e :: rest) = some (r, d)
    unfold scanFirst
    cases hf : parsedDoc e.file with
    | none =>
      have hne : (⟨r, p, .doc d⟩ : Entry) ≠ e := by
        intro h
        rw [← h] at hf
        exact Option.noConfusion hf
      have hmem' : (⟨r, p, .doc d⟩ : Entry) ∈ rest := by
        rcases List.mem_cons.mp hmem with h | h
        · exact absurd h hne
        · exact h
      exact ih hmem' hd (fun x hx => honly x (by simp [hx])) hnd'.2
    | some d0 =>
      show (if sel d0 = some v then some (e.role, d0) else scanFirst sel v rest) = some (r, d)
      by_cases hsel : sel d0 = some v
      · rw [if_pos hsel]
        have hkey : e.key = (r, p) := by
          apply honly e (by simp)
          rw [selHits_true_iff]
          exact ⟨d0, hf, hsel⟩
        have heq : (⟨r, p, .doc d⟩ : Entry) = e := by
          rcases List.mem_cons.mp hmem with h | h
          · exact h
          · exfalso
            apply hnd'.1
            rw [hkey]
            exact List.mem_map.mpr ⟨_, h, rfl⟩
        rw [← heq] at hf
        have hd0 : d0 = d := by
          have := hf
          simp [parsedDoc] at this
          exact this.symm
        rw [← heq, hd0]
      · rw [if_neg hsel]
        have hne : (⟨r, p, .doc d⟩ : Entry) ≠ e := by
          intro h
          rw [← h] at hf
          have : d0 = d := by simpa [parsedDoc] using hf.symm
          rw [this] at hsel
          exact hsel hd
        have hmem' : (⟨r, p, .doc d⟩ : Entry) ∈ rest := by
          rcases List.mem_cons.mp hmem with h | h
          · exact absurd h hne
          · exact h
        exact ih hmem' hd (fun x hx => honly x (by simp [hx])) hnd'.2

/-- Loading the path of a corpus member with well-formed content returns
exactly that document. -/
theorem loadDoc_of_mem (r : UserRole) (u : String) (d : JsonDoc) :
    ∀ c : List Entry, keysNodup c → (⟨r, u, .doc d⟩ : Entry) ∈ c → loadDoc c r u = d := by
  intro c
  induction c with
  | nil => intro _ hmem; exact absurd hmem (List.not_mem_nil _)
  | cons e rest ih =>
    intro hnd hmem
    have hnd0 : (List.map Entry.key (e :: rest)).Nodup := hnd
    rw [List.map_cons] at hnd0
    have hnd' := List.nodup_cons.mp hnd0
    show loadDoc (e :: rest) r u = d
    unfold loadDoc
    by_cases h0 : e.role = r ∧ e.pathUser = u
    · rw [if_pos h0]
      have heq : (⟨r, u, .doc d⟩ : Entry) = e := by
        rcases List.mem_cons.mp hmem with h | h
        · exact h
        · exfalso
          apply hnd'.1
          have : e.key = (r, u) := by
            rw [Prod.ext_iff]
            exact ⟨h0.1, h0.2⟩
          rw [this]
          exact List.mem_map.mpr ⟨_, h, rfl⟩
      rw [← heq]
    · rw [if_neg h0]
      have hmem' : (⟨r, u, .doc d⟩ : Entry) ∈ rest := by
        rcases List.mem_cons.mp hmem with h | h
        · exfalso
          apply h0
          rw [← h]
          exact ⟨rfl, rfl⟩
        · exact h
      exact ih hnd'.2 hmem'

/-- Every key in a saved corpus is the written key or an existing key. -/
theorem saveDoc_key_mem (r : UserRole) (u : String) (d : JsonDoc) (k : UserRole × String) :
    ∀ c : List Entry, k ∈ (saveDoc c r u d).map Entry.key →
      k = (r, u) ∨ k ∈ c.map Entry.key := by
  intro c
  induction c with
  | nil =>
    intro h
    simp [saveDoc, Entry.key] at h
    exact Or.inl h
  | cons e rest ih =>
    intro h
    show _ ∨ k ∈ (e :: rest).map Entry.key
    unfold saveDoc at h
    by_cases h0 : e.role = r ∧ e.pathUser = u
    · rw [if_pos h0] at h
      rw [List.map_cons] at h
      rcases List.mem_cons.mp h with h1 | h1
      · exact Or.inl (by rw [h1]; rfl)
      · exact Or.inr (by simp [h1])
    · rw [if_neg h0] at h
      rw [List.map_cons] at h
      rcases List.mem_cons.mp h with h1 | h1
      · exact Or.inr (by simp [h1])
      · rcases ih h1 with h2 | h2
        · exact Or.inl h2
        · exact Or.inr (by simp [h2])

/-- Saving preserves distinctness of paths. -/
theorem saveDoc_keysNodup (r : UserRole) (u : String) (d : JsonDoc) :
    ∀ c : List Entry, keysNodup c → keysNodup (saveDoc c r u d) := by
  intro c
  induction c with
  | nil => intro _; simp [saveDoc, keysNodup]
  | cons e rest ih =>
    intro hnd
    have hnd0 : (List.map Entry.key (e :: rest)).Nodup := hnd
    rw [List.map_cons] at hnd0
    have hnd' := List.nodup_cons.mp hnd0
    show keysNodup (saveDoc (e :: rest) r u d)
    unfold saveDoc
    by_cases h0 : e.role = r ∧ e.pathUser = u
    · rw [if_pos h0]
      have hkey : (⟨r, u, JFile.doc d⟩ : Entry).key = e.key := by
        rw [Prod.ext_iff]
        exact ⟨h0.1.symm, h0.2.symm⟩
      show (List.map Entry.key (⟨r, u, JFile.doc d⟩ :: rest)).Nodup
      rw [List.map_cons, hkey]
      exact List.nodup_cons.mpr hnd'
    · rw [if_neg h0]
      show (List.map Entry.key (e :: saveDoc rest r u d)).Nodup
      rw [List.map_cons]
      apply List.nodup_cons.mpr
      constructor
      · intro hmem
        rcases saveDoc_key_mem r u d e.key rest hmem with h1 | h1
        · apply h0
          have h2 := Prod.ext_iff.mp h1
          exact ⟨h2.1, h2.2⟩
        · exact hnd'.1 h1
      · exact ih hnd'.2

/-- The written document is a member of the saved corpus at its path. -/
theorem saveDoc_mem_self (r : UserRole) (u : String) (d : JsonDoc) :
    ∀ c : List Entry, (⟨r, u, .doc d⟩ : Entry) ∈ saveDoc c r u d := by
  intro c
  induction c with
  | nil => simp [saveDoc]
  | cons e rest ih =>
    show (⟨r, u, .doc d⟩ : Entry) ∈ saveDoc (e :: rest) r u d
    unfold saveDoc
    by_cases h0 : e.role = r ∧ e.pathUser = u
    · rw [if_pos h0]; simp
    · rw [if_neg h0]
      exact List.mem_cons_of_mem e ih

/-- A member of a saved corpus is the written document or an untouched
original member at a different path. -/
theorem saveDoc_mem_elim (r : UserRole) (u : String) (d : JsonDoc) (x : Entry) :
    ∀ c : List Entry, keysNodup c → x ∈ saveDoc c r u d →
      x = ⟨r, u, .doc d⟩ ∨ (x ∈ c ∧ x.key ≠ (r, u)) := by
  intro c
  induction c with
  | nil =>
    intro _ h
    simp [saveDoc] at h
    exact Or.inl h
  | cons e rest ih =>
    intro hnd h
    have hnd0 : (List.map Entry.key (e :: rest)).Nodup := hnd
    rw [List.map_cons] at hnd0
    have hnd' := List.nodup_cons.mp hnd0
    unfold saveDoc at h
    by_cases h0 : e.role = r ∧ e.pathUser = u
    · rw [if_pos h0] at h
      rcases List.mem_cons.mp h with h1 | h1
      · exact Or.inl h1
      · refine Or.inr ⟨List.mem_cons_of_mem e h1, ?_⟩
        intro hk
        apply hnd'.1
        have hek : e.key = (r, u) := by
          rw [Prod.ext_iff]
          exact ⟨h0.1, h0.2⟩
        rw [hek, ← hk]
        exact List.mem_map.mpr ⟨_, h1, rfl⟩
    · rw [if_neg h0] at h
      rcases List.mem_cons.mp h with h1 | h1
      · refine Or.inr ⟨by simp [h1], ?_⟩
        rw [h1]
        intro hk
        apply h0
        have h2 := Prod.ext_iff.mp hk
        exact ⟨h2.1, h2.2⟩
      · rcases ih hnd'.2 h1 with h2 | h2
        · exact Or.inl h2
        · exact Or.inr ⟨List.mem_cons_of_mem e h2.1, h2.2⟩

/-- A member at a different path survives a save. -/
theorem saveDoc_mem_keep (r : UserRole) (u : String) (d : JsonDoc) (x : Entry) :
    ∀ c : List Entry, x ∈ c → x.key ≠ (r, u) → x ∈ saveDoc c r u d := by
  intro c
  induction c with
  | nil => intro h _; exact absurd h (List.not_mem_nil _)
  | cons e rest ih =>
    intro hmem hk
    show x ∈ saveDoc (e :: rest) r u d
    unfold saveDoc
    by_cases h0 : e.role = r ∧ e.pathUser = u
    · rw [if_pos h0]
      rcases List.mem_cons.mp hmem with h1 | h1
      · exfalso
        apply hk
        rw [h1]
        rw [Prod.ext_iff]
        exact ⟨h0.1, h0.2⟩
      · exact List.mem_cons_of_mem _ h1
    · rw [if_neg h0]
      rcases List.mem_cons.mp hmem with h1 | h1
      · rw [h1]; simp
      · exact List.mem_cons_of_mem e (ih h1 hk)

/-- Helper: appending the same salt and pepper to two passwords yields
equal salted inputs only for equal passwords. -/
theorem salted_input_cancel (p q s pep : String) (h : p ++ s ++ pep = q ++ s ++ pep) :
    p = q := by
  apply String.ext
  have hd := congrArg String.data h
  simp only [String.data_append, List.append_assoc] at hd
  exact List.append_left_injective _ hd

/-- C1: verifying a password against the hash produced from that password
and salt succeeds, and verifying a different password against that hash
fails, for both `SecurityManager.hash_password`/`verify_password` and
`AdvancedPasswordHasher.hash_password`/`verify_password`. -/
theorem C1_hash_verify_roundtrip (P : Argon2) (password other salt : String) :
    SecurityManager.verify_password P
      (SecurityManager.hash_password P password salt) password salt = true ∧
    (other ≠ password →
      SecurityManager.verify_password P
        (SecurityManager.hash_password P password salt) other salt = false) ∧
    AdvancedPasswordHasher.verify_password P password salt
      (AdvancedPasswordHasher.hash_password P password salt) = true ∧
    (other ≠ password →
      AdvancedPasswordHasher.verify_password P other salt
        (AdvancedPasswordHasher.hash_password P password salt) = false) := by
  refine ⟨?_, ?_, ?_, ?_⟩
  · unfold SecurityManager.verify_password SecurityManager.hash_password
    rw [P.law]
    simp
  · intro hne
    unfold SecurityManager.verify_password SecurityManager.hash_password
    rw [P.law]
    rw [beq_eq_false_iff_ne]
    intro heq
    exact hne (salted_input_cancel password other salt SecurityManager.pepper heq).symm
  · unfold AdvancedPasswordHasher.verify_password AdvancedPasswordHasher.hash_password
    rw [P.law]
    simp
  · intro hne
    unfold AdvancedPasswordHasher.verify_password AdvancedPasswordHasher.hash_password
    rw [P.law]
    rw [beq_eq_false_iff_ne]
    intro heq
    exact hne (salted_input_cancel password other salt PAPPER heq).symm

/-- Witness for C1 at a concrete password, wrong password and salt. -/
theorem C1_hash_verify_roundtrip_witness :
    SecurityManager.verify_password idealArgon2
      (SecurityManager.hash_password idealArgon2 "pw1" "s1") "pw1" "s1" = true ∧
    SecurityManager.verify_password idealArgon2
      (SecurityManager.hash_password idealArgon2 "pw1" "s1") "pw2" "s1" = false ∧
    AdvancedPasswordHasher.verify_password idealArgon2 "pw1" "s1"
      (AdvancedPasswordHasher.hash_password idealArgon2 "pw1" "s1") = true ∧
    AdvancedPasswordHasher.verify_password idealArgon2 "pw2" "s1"
      (AdvancedPasswordHasher.hash_password idealArgon2 "pw1" "s1") = false := by
  have h := C1_hash_verify_roundtrip idealArgon2 "pw1" "pw2" "s1"
  exact ⟨h.1, h.2.1 (by decide), h.2.2.1, h.2.2.2 (by decide)⟩

/-- C3: a password change attempted with a wrong old password returns
`false` and leaves the stored document (hash and salt included) unchanged,
in all three implementations. -/
theorem C3_change_password_wrong_old (P : Argon2) (data : JsonDoc)
    (freshSalt old_password new_password : String)
    (hum : SecurityManager.verify_password P (data.password.getD "")
      old_password (data.salt.getD "") = false)
    (hvol : VolunteerDatabase.verify_user P data old_password = false)
    (horg : OrganizerDatabase.verify_user P data old_password = false) :
    UserManager.change_password P data freshSalt old_password new_password = (false, data) ∧
    VolunteerDatabase.change_password P data old_password new_password = (false, data) ∧
    OrganizerDatabase.change_password P data old_password new_password = (false, data) := by
  refine ⟨?_, ?_, ?_⟩
  · unfold UserManager.change_password
    rw [hum]
    simp
  · unfold VolunteerDatabase.change_password
    rw [hvol]
    simp
  · unfold OrganizerDatabase.change_password
    rw [horg]
    simp

/-- Witness for C3: a stored document with a definite hash and salt, and a
wrong old password. -/
theorem C3_change_password_wrong_old_witness :
    UserManager.change_password idealArgon2
      { password := some "storedhash", salt := some "s" } "fresh" "wrong" "new" =
      (false, { password := some "storedhash", salt := some "s" }) ∧
    VolunteerDatabase.change_password idealArgon2
      { password := some "storedhash", salt := some "s" } "wrong" "new" =
      (false, { password := some "storedhash", salt := some "s" }) ∧
    OrganizerDatabase.change_password idealArgon2
      { password := some "storedhash", salt := some "s" } "wrong" "new" =
      (false, { password := some "storedhash", salt := some "s" }) :=
  C3_change_password_wrong_old idealArgon2
    { password := some "storedhash", salt := some "s" } "fresh" "wrong" "new"
    (by decide) (by decide) (by decide)

/-- C4 evaluated at a failing input: a successful password change through
`VolunteerDatabase.change_password` or `OrganizerDatabase.change_password`
returns `true` yet leaves the stored salt exactly as it was (the new hash
is computed with the old salt), while `UserManager.change_password` does
store the freshly generated salt. -/
theorem C4_salt_not_rotated_on_change :
    (VolunteerDatabase.change_password idealArgon2
      { password := some (AdvancedPasswordHasher.hash_password idealArgon2 "old" "aabb")
        salt := some "aabb" } "old" "new").1 = true ∧
    ((VolunteerDatabase.change_password idealArgon2
      { password := some (AdvancedPasswordHasher.hash_password idealArgon2 "old" "aabb")
        salt := some "aabb" } "old" "new").2).salt = some "aabb" ∧
    (OrganizerDatabase.change_password idealArgon2
      { password := some (AdvancedPasswordHasher.hash_password idealArgon2 "old" "aabb")
        salt := some "aabb" } "old" "new").1 = true ∧
    ((OrganizerDatabase.change_password idealArgon2
      { password := some (AdvancedPasswordHasher.hash_password idealArgon2 "old" "aabb")
        salt := some "aabb" } "old" "new").2).salt = some "aabb" ∧
    (UserManager.change_password idealArgon2
      { password := some (SecurityManager.hash_password idealArgon2 "old" "aabb")
        salt := some "aabb" } "ccdd" "old" "new").1 = true ∧
    ((UserManager.change_password idealArgon2
      { password := some (SecurityManager.hash_password idealArgon2 "old" "aabb")
        salt := some "aabb" } "ccdd" "old" "new").2).salt = some "ccdd" := by
  decide

/-- C2 (amended): the `UserAdvancements` scan-based lookups skip malformed
documents and return `none` when no document carries the queried token or
username, and return the unique matching document with its role when
exactly one document matches. -/
theorem C2_directory_lookups (c : List Entry) (tAbsent uAbsent tok usr : String)
    (r1 : UserRole) (p1 : String) (d1 : JsonDoc)
    (r2 : UserRole) (p2 : String) (d2 : JsonDoc)
    (hnd : keysNodup c) :
    ((∀ e ∈ c, selHits (fun d => d.token) tAbsent e = false) →
      UserAdvancements.search_user_by_token c tAbsent = none) ∧
    ((∀ e ∈ c, selHits (fun d => d.username) uAbsent e = false) →
      UserAdvancements.search_user_by_username c uAbsent = none) ∧
    ((⟨r1, p1, .doc d1⟩ : Entry) ∈ c → d1.token = some tok →
      (∀ e ∈ c, selHits (fun d => d.token) tok e = true → e.key = (r1, p1)) →
      UserAdvancements.search_user_by_token c tok = some (r1, d1)) ∧
    ((⟨r2, p2, .doc d2⟩ : Entry) ∈ c → d2.username = some usr →
      (∀ e ∈ c, selHits (fun d => d.username) usr e = true → e.key = (r2, p2)) →
      UserAdvancements.search_user_by_username c usr = some (r2, d2)) := by
  refine ⟨?_, ?_, ?_, ?_⟩
  · intro h
    exact scanFirst_eq_none (fun d => d.token) tAbsent c h
  · intro h
    exact scanFirst_eq_none (fun d => d.username) uAbsent c h
  · intro hmem hd honly
    exact scanFirst_unique (fun d => d.token) tok r1 p1 d1 c hmem hd honly hnd
  · intro hmem hd honly
    exact scanFirst_unique (fun d => d.username) usr r2 p2 d2 c hmem hd honly hnd

/-- Witness for C2 on a concrete two-file corpus whose first file is
malformed: the malformed file is skipped, absent values give `none`, and
present values give the matching document with its role. -/
theorem C2_directory_lookups_witness :
    UserAdvancements.search_user_by_token
      [⟨.VOLUNTEER, "broken", .malformed⟩,
       ⟨.VOLUNTEER, "alice", .doc { username := some "alice", token := some "VOL_t1" }⟩]
      "nope" = none ∧
    UserAdvancements.search_user_by_username
      [⟨.VOLUNTEER, "broken", .malformed⟩,
       ⟨.VOLUNTEER, "alice", .doc { username := some "alice", token := some "VOL_t1" }⟩]
      "nobody" = none ∧
    UserAdvancements.search_user_by_token
      [⟨.VOLUNTEER, "broken", .malformed⟩,
       ⟨.VOLUNTEER, "alice", .doc { username := some "alice", token := some "VOL_t1" }⟩]
      "VOL_t1" = some (.VOLUNTEER, { username := some "alice", token := some "VOL_t1" }) ∧
    UserAdvancements.search_user_by_username
      [⟨.VOLUNTEER, "broken", .malformed⟩,
       ⟨.VOLUNTEER, "alice", .doc { username := some "alice", token := some "VOL_t1" }⟩]
      "alice" = some (.VOLUNTEER, { username := some "alice", token := some "VOL_t1" }) := by
  have h := C2_directory_lookups
    [⟨.VOLUNTEER, "broken", .malformed⟩,
     ⟨.VOLUNTEER, "alice", .doc { username := some "alice", token := some "VOL_t1" }⟩]
    "nope" "nobody" "VOL_t1" "alice"
    .VOLUNTEER "alice" { username := some "alice", token := some "VOL_t1" }
    .VOLUNTEER "alice" { username := some "alice", token := some "VOL_t1" }
    (by decide)
  exact ⟨h.1 (by decide), h.2.1 (by decide),
         h.2.2.1 (by decide) (by decide) (by decide),
         h.2.2.2 (by decide) (by decide) (by decide)⟩

/-- Counterexample to C2 as stated: the module-level `search_user_by_token`
of `database/__init__.py` does not skip a malformed document — the JSON
parse error propagates, instead of the `none` the claim requires for a
corpus without the queried token. -/
theorem C2_module_scan_fatal_counterexample :
    search_user_by_token_module "anytoken" [⟨.VOLUNTEER, "broken", .malformed⟩] =
      .error "JSONDecodeError" ∧
    (Except.error "JSONDecodeError" :
      Except String (Option (UserRole × JsonDoc))) ≠ .ok none := by
  refine ⟨rfl, ?_⟩
  intro h
  exact Except.noConfusion h

/-- A well-formed two-account situation for the follow graph: the corpus
has distinct paths, the follower exists as a volunteer document whose
`username` field matches its path, the followee as an organizer document
likewise, and no other document in the corpus carries either username. -/
structure GoodState (c : List Entry) (A B : String) (dA dB : JsonDoc) : Prop where
  nodup : keysNodup c
  memA : (⟨.VOLUNTEER, A, .doc dA⟩ : Entry) ∈ c
  userA : dA.username = some A
  onlyA : ∀ e ∈ c, selHits (fun d => d.username) A e = true → e.key = (.VOLUNTEER, A)
  memB : (⟨.ORGANIZER, B, .doc dB⟩ : Entry) ∈ c
  userB : dB.username = some B
  onlyB : ∀ e ∈ c, selHits (fun d => d.username) B e = true → e.key = (.ORGANIZER, B)

/-- In a good state the two usernames differ (the organizer document would
otherwise carry the volunteer's username). -/
theorem GoodState.ab_ne {c : List Entry} {A B : String} {dA dB : JsonDoc}
    (g : GoodState c A B dA dB) : A ≠ B := by
  intro hab
  have hhit : selHits (fun d => d.username) A (⟨.ORGANIZER, B, .doc dB⟩ : Entry) = true := by
    rw [selHits_true_iff]
    exact ⟨dB, rfl, by rw [g.userB, hab]⟩
  have hk := g.onlyA _ g.memB hhit
  simp [Entry.key] at hk

/-- Saving a replacement volunteer document that keeps the follower's
username preserves the good state. -/
theorem GoodState.save_vol {c : List Entry} {A B : String} {dA dB : JsonDoc}
    (g : GoodState c A B dA dB) (dA2 : JsonDoc) (hu : dA2.username = some A) :
    GoodState (saveDoc c .VOLUNTEER A dA2) A B dA2 dB := by
  have hAB := g.ab_ne
  refine ⟨saveDoc_keysNodup _ _ _ c g.nodup, saveDoc_mem_self _ _ _ c, hu, ?_, ?_, g.userB, ?_⟩
  · intro e he hhit
    rcases saveDoc_mem_elim _ _ _ e c g.nodup he with h1 | h1
    · rw [h1]; rfl
    · exact g.onlyA e h1.1 hhit
  · apply saveDoc_mem_keep _ _ _ _ c g.memB
    intro hk
    have h1 := (Prod.ext_iff.mp hk).1
    exact UserRole.noConfusion h1
  · intro e he hhit
    rcases saveDoc_mem_elim _ _ _ e c g.nodup he with h1 | h1
    · exfalso
      rw [h1, selHits_true_iff] at hhit
      obtain ⟨d', hd', hu'⟩ := hhit
      have hdd : d' = dA2 := (Option.some.inj hd').symm
      rw [hdd, hu] at hu'
      exact hAB (Option.some.inj hu')
    · exact g.onlyB e h1.1 hhit

/-- Saving a replacement organizer document that keeps the followee's
username preserves the good state. -/
theorem GoodState.save_org {c : List Entry} {A B : String} {dA dB : JsonDoc}
    (g : GoodState c A B dA dB) (dB2 : JsonDoc) (hu : dB2.username = some B) :
    GoodState (saveDoc c .ORGANIZER B dB2) A B dA dB2 := by
  have hAB := g.ab_ne
  refine ⟨saveDoc_keysNodup _ _ _ c g.nodup, ?_, g.userA, ?_, saveDoc_mem_self _ _ _ c, hu, ?_⟩
  · apply saveDoc_mem_keep _ _ _ _ c g.memA
    intro hk
    have h1 := (Prod.ext_iff.mp hk).1
    exact UserRole.noConfusion h1
  · intro e he hhit
    rcases saveDoc_mem_elim _ _ _ e c g.nodup he with h1 | h1
    · exfalso
      rw [h1, selHits_true_iff] at hhit
      obtain ⟨d', hd', hu'⟩ := hhit
      have hdd : d' = dB2 := (Option.some.inj hd').symm
      rw [hdd, hu] at hu'
      exact hAB (Option.some.inj hu').symm
    · exact g.onlyA e h1.1 hhit
  · intro e he hhit
    rcases saveDoc_mem_elim _ _ _ e c g.nodup he with h1 | h1
    · rw [h1]; rfl
    · exact g.onlyB e h1.1 hhit

/-- Effect of one `follow_user_` call on a good state: the follower's
`following` gains the followee if absent, the followee's `followers` gains
the follower if absent, and the state stays good. -/
theorem follow_user_spec {c : List Entry} {A B : String} {dA dB : JsonDoc}
    (g : GoodState c A B dA dB) :
    GoodState (UserAdvancements.follow_user_ c A B) A B
      (if B ∈ dA.following.getD [] then dA
       else { dA with following := some (dA.following.getD [] ++ [B]) })
      (if A ∈ dB.followers.getD [] then dB
       else { dB with followers := some (dB.followers.getD [] ++ [A]) }) := by
  have hloadA : loadDoc c .VOLUNTEER A = dA := loadDoc_of_mem _ _ _ c g.nodup g.memA
  have hloadB : loadDoc c .ORGANIZER B = dB := loadDoc_of_mem _ _ _ c g.nodup g.memB
  unfold UserAdvancements.follow_user_
  rw [hloadA, hloadB]
  dsimp only
  by_cases h1 : B ∈ dA.following.getD []
  · rw [if_pos h1, if_pos h1]
    by_cases h2 : A ∈ dB.followers.getD []
    · rw [if_pos h2, if_pos h2]
      exact g
    · rw [if_neg h2, if_neg h2]
      exact g.save_org _ g.userB
  · rw [if_neg h1, if_neg h1]
    by_cases h2 : A ∈ dB.followers.getD []
    · rw [if_pos h2, if_pos h2]
      exact g.save_vol _ g.userA
    · rw [if_neg h2, if_neg h2]
      exact (g.save_vol { dA with following := some (dA.following.getD [] ++ [B]) }
        g.userA).save_org { dB with followers := some (dB.followers.getD [] ++ [A]) } g.userB

/-- Helper: conditionally appending an element that occurs at most once
leaves it present with exactly one occurrence. -/
theorem append_if_absent_count {α : Type} [DecidableEq α] (x : α) (l : List α)
    (h : l.count x ≤ 1) :
    x ∈ (if x ∈ l then l else l ++ [x]) ∧ (if x ∈ l then l else l ++ [x]).count x = 1 := by
  by_cases hx : x ∈ l
  · rw [if_pos hx]
    exact ⟨hx, le_antisymm h (List.count_pos_iff.mpr hx)⟩
  · rw [if_neg hx]
    refine ⟨by simp, ?_⟩
    rw [List.count_append]
    rw [List.count_eq_zero.mpr hx]
    simp

/-- Helper: `get_following` through a resolved username search. -/
theorem get_following_of_search (c : List Entry) (u : String) (r : UserRole) (d : JsonDoc)
    (h : UserAdvancements.search_user_by_username c u = some (r, d)) :
    UserAdvancements.get_following c u = some (d.following.getD []) := by
  unfold UserAdvancements.get_following
  rw [h]

/-- Helper: `get_followers` through a resolved username search. -/
theorem get_followers_of_search (c : List Entry) (u : String) (r : UserRole) (d : JsonDoc)
    (h : UserAdvancements.search_user_by_username c u = some (r, d)) :
    UserAdvancements.get_followers c u = some (d.followers.getD []) := by
  unfold UserAdvancements.get_followers
  rw [h]

/-- C5: after `follow_user_(A, B)` the following list of A contains B and
the followers list of B contains A, each with exactly one occurrence, and
a second `follow_user_(A, B)` leaves both lists unchanged (no duplicate is
appended). -/
theorem C5_follow_graph (c : List Entry) (A B : String) (dA dB : JsonDoc)
    (g : GoodState c A B dA dB)
    (hAcnt : (dA.following.getD []).count B ≤ 1)
    (hBcnt : (dB.followers.getD []).count A ≤ 1) :
    ∃ l1 l2,
      UserAdvancements.get_following (UserAdvancements.follow_user_ c A B) A = some l1 ∧
      B ∈ l1 ∧ l1.count B = 1 ∧
      UserAdvancements.get_followers (UserAdvancements.follow_user_ c A B) B = some l2 ∧
      A ∈ l2 ∧ l2.count A = 1 ∧
      UserAdvancements.get_following
        (UserAdvancements.follow_user_ (UserAdvancements.follow_user_ c A B) A B) A = some l1 ∧
      UserAdvancements.get_followers
        (UserAdvancements.follow_user_ (UserAdvancements.follow_user_ c A B) A B) B = some l2 := by
  have g1 := follow_user_spec g
  set dA2 := (if B ∈ dA.following.getD [] then dA
              else { dA with following := some (dA.following.getD [] ++ [B]) }) with hdA2
  set dB2 := (if A ∈ dB.followers.getD [] then dB
              else { dB with followers := some (dB.followers.getD [] ++ [A]) }) with hdB2
  have hfl : dA2.following.getD [] =
      (if B ∈ dA.following.getD [] then dA.following.getD []
       else dA.following.getD [] ++ [B]) := by
    by_cases h1 : B ∈ dA.following.getD [] <;> simp [hdA2, h1]
  have hfr : dB2.followers.getD [] =
      (if A ∈ dB.followers.getD [] then dB.followers.getD []
       else dB.followers.getD [] ++ [A]) := by
    by_cases h2 : A ∈ dB.followers.getD [] <;> simp [hdB2, h2]
  have hB1 := append_if_absent_count B (dA.following.getD []) hAcnt
  have hA2 := append_if_absent_count A (dB.followers.getD []) hBcnt
  have hBmem1 : B ∈ dA2.following.getD [] := by rw [hfl]; exact hB1.1
  have hBcnt1 : (dA2.following.getD []).count B = 1 := by rw [hfl]; exact hB1.2
  have hAmem2 : A ∈ dB2.followers.getD [] := by rw [hfr]; exact hA2.1
  have hAcnt2 : (dB2.followers.getD []).count A = 1 := by rw [hfr]; exact hA2.2
  have hsearchA : UserAdvancements.search_user_by_username
      (UserAdvancements.follow_user_ c A B) A = some (.VOLUNTEER, dA2) :=
    scanFirst_unique _ A .VOLUNTEER A dA2 _ g1.memA g1.userA g1.onlyA g1.nodup
  have hsearchB : UserAdvancements.search_user_by_username
      (UserAdvancements.follow_user_ c A B) B = some (.ORGANIZER, dB2) :=
    scanFirst_unique _ B .ORGANIZER B dB2 _ g1.memB g1.userB g1.onlyB g1.nodup
  have g2 := follow_user_spec g1
  rw [if_pos hBmem1, if_pos hAmem2] at g2
  have hsearchA2 : UserAdvancements.search_user_by_username
      (UserAdvancements.follow_user_ (UserAdvancements.follow_user_ c A B) A B) A =
      some (.VOLUNTEER, dA2) :=
    scanFirst_unique _ A .VOLUNTEER A dA2 _ g2.memA g2.userA g2.onlyA g2.nodup
  have hsearchB2 : UserAdvancements.search_user_by_username
      (UserAdvancements.follow_user_ (UserAdvancements.follow_user_ c A B) A B) B =
      some (.ORGANIZER, dB2) :=
    scanFirst_unique _ B .ORGANIZER B dB2 _ g2.memB g2.userB g2.onlyB g2.nodup
  refine ⟨dA2.following.getD [], dB2.followers.getD [], ?_, hBmem1, hBcnt1, ?_, hAmem2,
    hAcnt2, ?_, ?_⟩
  · exact get_following_of_search _ _ _ _ hsearchA
  · exact get_followers_of_search _ _ _ _ hsearchB
  · exact get_following_of_search _ _ _ _ hsearchA2
  · exact get_followers_of_search _ _ _ _ hsearchB2

/-- Witness for C5 on a concrete two-account corpus with empty follow
lists. -/
theorem C5_follow_graph_witness :
    ∃ l1 l2,
      UserAdvancements.get_following
        (UserAdvancements.follow_user_
          [⟨.VOLUNTEER, "alice", .doc { username := some "alice" }⟩,
           ⟨.ORGANIZER, "bob", .doc { username := some "bob" }⟩]
          "alice" "bob") "alice" = some l1 ∧
      "bob" ∈ l1 ∧ l1.count "bob" = 1 ∧
      UserAdvancements.get_followers
        (UserAdvancements.follow_user_
          [⟨.VOLUNTEER, "alice", .doc { username := some "alice" }⟩,
           ⟨.ORGANIZER, "bob", .doc { username := some "bob" }⟩]
          "alice" "bob") "bob" = some l2 ∧
      "alice" ∈ l2 ∧ l2.count "alice" = 1 ∧
      UserAdvancements.get_following
        (UserAdvancements.follow_user_
          (UserAdvancements.follow_user_
            [⟨.VOLUNTEER, "alice", .doc { username := some "alice" }⟩,
             ⟨.ORGANIZER, "bob", .doc { username := some "bob" }⟩]
            "alice" "bob") "alice" "bob") "alice" = some l1 ∧
      UserAdvancements.get_followers
        (UserAdvancements.follow_user_
          (UserAdvancements.follow_user_
            [⟨.VOLUNTEER, "alice", .doc { username := some "alice" }⟩,
             ⟨.ORGANIZER, "bob", .doc { username := some "bob" }⟩]
            "alice" "bob") "alice" "bob") "bob" = some l2 :=
  C5_follow_graph
    [⟨.VOLUNTEER, "alice", .doc { username := some "alice" }⟩,
     ⟨.ORGANIZER, "bob", .doc { username := some "bob" }⟩]
    "alice" "bob" { username := some "alice" } { username := some "bob" }
    ⟨by decide, by decide, by decide, by decide, by decide, by decide, by decide⟩
    (by decide) (by decide)

/-- Helper: the first id-match of the collection determines the id. -/
theorem get_application_id (i : String) (app : Application) :
    ∀ apps : List Application, Applications.get_application apps i = some app →
      app.id = i := by
  intro apps
  induction apps with
  | nil => intro h; exact Option.noConfusion h
  | cons a rest ih =>
    intro h
    unfold Applications.get_application at h
    by_cases h0 : a.id = i
    · rw [if_pos h0] at h
      rw [← Option.some.inj h]
      exact h0
    · rw [if_neg h0] at h
      exact ih h

/-- Helper: replacing the first id-match by a document with the same id
makes it the first id-match afterwards. -/
theorem get_application_update (i : String) (newApp : Application) (hid : newApp.id = i) :
    ∀ apps : List Application, (Applications.get_application apps i).isSome →
      Applications.get_application (Applications.update_application apps i newApp) i =
        some newApp := by
  intro apps
  induction apps with
  | nil => intro h; simp [Applications.get_application] at h
  | cons a rest ih =>
    intro h
    unfold Applications.update_application
    by_cases h0 : a.id = i
    · rw [if_pos h0]
      unfold Applications.get_application
      rw [if_pos hid]
    · rw [if_neg h0]
      unfold Applications.get_application
      rw [if_neg h0]
      apply ih
      unfold Applications.get_application at h
      rw [if_neg h0] at h
      exact h

/-- C6: assigning a not-yet-assigned volunteer to an existing application
succeeds (returns `True`) and appends the volunteer exactly once; the
immediately repeated assignment returns `False` and changes nothing. -/
theorem C6_assign_volunteer_twice (apps : List Application)
    (application_id volunteer : String) (app : Application)
    (happ : Applications.get_application apps application_id = some app)
    (hnot : volunteer ∉ app.volunteers) :
    ∃ apps1,
      Applications.assign_volunteer apps application_id volunteer = (some true, apps1) ∧
      Applications.get_application apps1 application_id =
        some { app with volunteers := app.volunteers ++ [volunteer] } ∧
      (app.volunteers ++ [volunteer]).count volunteer = 1 ∧
      Applications.assign_volunteer apps1 application_id volunteer = (some false, apps1) := by
  have hid : app.id = application_id := get_application_id _ _ apps happ
  have hupd : Applications.get_application
      (Applications.update_application apps application_id
        { app with volunteers := app.volunteers ++ [volunteer] }) application_id =
      some { app with volunteers := app.volunteers ++ [volunteer] } :=
    get_application_update application_id
      { app with volunteers := app.volunteers ++ [volunteer] } hid apps
      (by rw [happ]; rfl)
  have hfirst : Applications.assign_volunteer apps application_id volunteer =
      (some true, Applications.update_application apps application_id
        { app with volunteers := app.volunteers ++ [volunteer] }) := by
    unfold Applications.assign_volunteer
    rw [happ]
    dsimp only
    rw [if_neg hnot]
  refine ⟨_, hfirst, hupd, ?_, ?_⟩
  · rw [List.count_append, List.count_eq_zero.mpr hnot]
    simp
  · unfold Applications.assign_volunteer
    rw [hupd]
    dsimp only
    rw [if_pos (by simp : volunteer ∈
      ({ app with volunteers := app.volunteers ++ [volunteer] } : Application).volunteers)]

/-- Witness for C6: one application with an empty volunteer list. -/
theorem C6_assign_volunteer_twice_witness :
    ∃ apps1,
      Applications.assign_volunteer [{ id := "1", volunteers := [] }] "1" "bob" =
        (some true, apps1) ∧
      Applications.get_application apps1 "1" =
        some { id := "1", volunteers := [] ++ ["bob"] } ∧
      (([] : List String) ++ ["bob"]).count "bob" = 1 ∧
      Applications.assign_volunteer apps1 "1" "bob" = (some false, apps1) :=
  C6_assign_volunteer_twice [{ id := "1", volunteers := [] }] "1" "bob"
    { id := "1", volunteers := [] } (by decide) (by decide)

/-- C7: updating an existing event succeeds and preserves the stored `id`
and `created_at`, whatever the payload supplies for those keys. -/
theorem C7_update_event_preserves (events : List Event) (event_id : String)
    (p : EventPayload) (ev : Event)
    (h : EventsDatabase.get_event events event_id = some ev) :
    ∃ events',
      EventsDatabase.update_event events event_id p = (true, events') ∧
      ∃ ev', EventsDatabase.get_event events' event_id = some ev' ∧
        ev'.id = ev.id ∧ ev'.created_at = ev.created_at := by
  induction events with
  | nil => exact absurd h (by simp [EventsDatabase.get_event])
  | cons e rest ih =>
    by_cases h0 : e.id = event_id
    · have hev : ev = e := by
        unfold EventsDatabase.get_event at h
        rw [if_pos h0] at h
        exact (Option.some.inj h).symm
      refine ⟨EventsDatabase.mergeUpdate e event_id p :: rest, ?_,
        EventsDatabase.mergeUpdate e event_id p, ?_, ?_, ?_⟩
      · unfold EventsDatabase.update_event
        rw [if_pos h0]
      · unfold EventsDatabase.get_event
        rw [if_pos (show (EventsDatabase.mergeUpdate e event_id p).id = event_id from rfl)]
      · show event_id = ev.id
        rw [hev]
        exact h0.symm
      · show e.created_at = ev.created_at
        rw [hev]
    · have h' : EventsDatabase.get_event rest event_id = some ev := by
        unfold EventsDatabase.get_event at h
        rw [if_neg h0] at h
        exact h
      obtain ⟨rest', hup, ev', hget, hid, hca⟩ := ih h'
      refine ⟨e :: rest', ?_, ev', ?_, hid, hca⟩
      · unfold EventsDatabase.update_event
        rw [if_neg h0]
        dsimp only
        rw [hup]
      · unfold EventsDatabase.get_event
        rw [if_neg h0]
        exact hget

/-- Witness for C7: a payload that supplies its own `id` and `created_at`
does not displace the stored ones. -/
theorem C7_update_event_preserves_witness :
    ∃ events',
      EventsDatabase.update_event [{ id := "E1", created_at := some "T0" }] "E1"
        { id := some "HACK", created_at := some "1999-01-01" } = (true, events') ∧
      ∃ ev', EventsDatabase.get_event events' "E1" = some ev' ∧
        ev'.id = ({ id := "E1", created_at := some "T0" } : Event).id ∧
        ev'.created_at = ({ id := "E1", created_at := some "T0" } : Event).created_at :=
  C7_update_event_preserves [{ id := "E1", created_at := some "T0" }] "E1"
    { id := some "HACK", created_at := some "1999-01-01" }
    { id := "E1", created_at := some "T0" } (by decide)

/-- C8 evaluated at the failing input: a payload that already carries `id`,
`created_at` and `who_created` keeps those values in the stored event —
the `**event_data` re-splat overrides the generated UUID, server timestamp
and username — while the function still returns the unused fresh UUID. -/
theorem C8_create_event_caller_override :
    EventsDatabase.create_event []
      { id := some "evil", created_at := some "1999-01-01T00:00:00",
        who_created := some "mallory" }
      "alice" "uuid-fresh-1" "2026-10-12T00:00:00" =
      ("uuid-fresh-1",
        [{ id := "evil", created_at := some "1999-01-01T00:00:00",
           status := some "active", who_created := some "mallory" }]) ∧
    ("evil" : String) ≠ "uuid-fresh-1" ∧
    (some "1999-01-01T00:00:00" : Option String) ≠ some "2026-10-12T00:00:00" ∧
    (some "mallory" : Option String) ≠ some "alice" := by
  refine ⟨rfl, by decide, by decide, by decide⟩

/-- The hex encoding of a byte list is two characters per byte. -/
theorem bytesToHex_length : ∀ bs : List Nat, (bytesToHex bs).length = 2 * bs.length := by
  intro bs
  induction bs with
  | nil => rfl
  | cons b rest ih =>
    show (byteToHexChars b ++ bytesToHex rest).length = 2 * (rest.length + 1)
    rw [List.length_append, ih]
    show 2 + 2 * rest.length = 2 * (rest.length + 1)
    omega

/-- Each of the sixteen digit values encodes to a hexadecimal character. -/
theorem hexDigitChar_hex : ∀ n < 16, isHexDigitChar (hexDigitChar n) := by decide

/-- The hex encoding of bytes consists of hexadecimal characters. -/
theorem bytesToHex_hex : ∀ bs : List Nat, (∀ b ∈ bs, b < 256) →
    ∀ ch ∈ bytesToHex bs, isHexDigitChar ch := by
  intro bs
  induction bs with
  | nil =>
    intro _ ch hch
    simp [bytesToHex] at hch
  | cons b rest ih =>
    intro hb ch hch
    have hb0 : b < 256 := hb b (by simp)
    rcases List.mem_append.mp hch with h | h
    · have hmem : ch = hexDigitChar (b / 16) ∨ ch = hexDigitChar (b % 16) := by
        simpa [byteToHexChars] using h
      rcases hmem with h1 | h1
      · rw [h1]
        exact hexDigitChar_hex _ (by omega)
      · rw [h1]
        exact hexDigitChar_hex _ (by omega)
    · exact ih (fun x hx => hb x (by simp [hx])) ch h

/-- C9 (amended): a token from `generate_token` (default length 35) is the
given prefix followed by 34 hexadecimal characters — at least the 32 hex
characters (128 bits) the spec demands — while the token stored by
`create_user` is the 3-letter role prefix, an underscore, and only 24
hexadecimal characters (96 bits of randomness). -/
theorem C9_token_formats (pfx : String) (role : UserRole) (entropy1 entropy2 : List Nat)
    (h1len : 17 ≤ entropy1.length) (h1b : ∀ b ∈ entropy1, b < 256)
    (h2len : entropy2.length = 12) (h2b : ∀ b ∈ entropy2, b < 256) :
    (generate_token pfx 35 entropy1 = pfx ++ String.mk (secrets_token_hex 17 entropy1) ∧
      (secrets_token_hex 17 entropy1).length = 34 ∧
      32 ≤ (secrets_token_hex 17 entropy1).length ∧
      (∀ ch ∈ secrets_token_hex 17 entropy1, isHexDigitChar ch)) ∧
    (UserAdvancements.create_user_token role entropy2 =
        role.name3 ++ "_" ++ String.mk (bytesToHex entropy2) ∧
      (bytesToHex entropy2).length = 24 ∧
      ¬ 32 ≤ (bytesToHex entropy2).length ∧
      (∀ ch ∈ bytesToHex entropy2, isHexDigitChar ch)) := by
  have hlen1 : (secrets_token_hex 17 entropy1).length = 34 := by
    unfold secrets_token_hex
    rw [bytesToHex_length, List.length_take, Nat.min_eq_left h1len]
  have htake2 : entropy2.take 12 = entropy2 := by
    rw [← h2len]
    exact List.take_length entropy2
  have hlen2 : (bytesToHex entropy2).length = 24 := by
    rw [bytesToHex_length, h2len]
  refine ⟨⟨rfl, hlen1, by rw [hlen1]; omega, ?_⟩, ⟨?_, hlen2, by rw [hlen2]; omega, ?_⟩⟩
  · intro ch hch
    exact bytesToHex_hex _ (fun b hb => h1b b (List.take_subset _ _ hb)) ch hch
  · unfold UserAdvancements.create_user_token
    rw [htake2]
  · exact bytesToHex_hex _ h2b

/-- Witness for C9 at concrete entropy bytes. -/
theorem C9_token_formats_witness :
    (generate_token "vol_" 35 (List.replicate 17 171) =
      "vol_" ++ String.mk (secrets_token_hex 17 (List.replicate 17 171)) ∧
      (secrets_token_hex 17 (List.replicate 17 171)).length = 34 ∧
      32 ≤ (secrets_token_hex 17 (List.replicate 17 171)).length ∧
      (∀ ch ∈ secrets_token_hex 17 (List.replicate 17 171), isHexDigitChar ch)) ∧
    (UserAdvancements.create_user_token .ORGANIZER (List.replicate 12 171) =
      UserRole.name3 .ORGANIZER ++ "_" ++ String.mk (bytesToHex (List.replicate 12 171)) ∧
      (bytesToHex (List.replicate 12 171)).length = 24 ∧
      ¬ 32 ≤ (bytesToHex (List.replicate 12 171)).length ∧
      (∀ ch ∈ bytesToHex (List.replicate 12 171), isHexDigitChar ch)) :=
  C9_token_formats "vol_" .ORGANIZER (List.replicate 17 171) (List.replicate 12 171)
    (by decide) (by decide) (by decide) (by decide)

/-- Counterexample to C9 as stated: the token stored by `create_user`
carries only 24 hexadecimal characters after the prefix, short of the
claimed minimum of 32. -/
theorem C9_create_user_token_counterexample :
    UserAdvancements.create_user_token .VOLUNTEER (List.replicate 12 0) =
      "VOL_" ++ String.mk (List.replicate 24 '0') ∧
    (List.replicate 24 '0').length = 24 ∧ ¬ 32 ≤ (24 : Nat) := by
  refine ⟨by decide, by decide, by decide⟩

/-- C10: for a username matching no document in the corpus,
`get_avg_rating` returns `None` — not `0` and not an error — despite the
declared `float` return type. -/
theorem C10_get_avg_rating_unknown (c : List Entry) (username : String)
    (h : ∀ e ∈ c, selHits (fun d => d.username) username e = false) :
    UserAdvancements.get_avg_rating c username = none := by
  unfold UserAdvancements.get_avg_rating
  rw [show UserAdvancements.search_user_by_username c username = none from
    scanFirst_eq_none _ _ c h]

/-- Witness for C10 on a non-empty corpus without the queried username. -/
theorem C10_get_avg_rating_unknown_witness :
    UserAdvancements.get_avg_rating
      [⟨.VOLUNTEER, "alice", .doc { username := some "alice" }⟩] "ghost" = none :=
  C10_get_avg_rating_unknown
    [⟨.VOLUNTEER, "alice", .doc { username := some "alice" }⟩] "ghost" (by decide)
